import Mathlib

/-!
Shallow embedding of `src/drivers/FirebaseDriver.ts` (hawiah-firebase).

The driver is a single adapter class over Firebase Firestore.  We model:

* a Firestore document value as an inductive `Value` (strings, numbers,
  booleans, null);
* a record / query / data map (a JS object) as an association list
  `List (String × Value)`; field access is first-match lookup, and the JS
  spread `{...a, k: v}` is `setField` (later bindings override earlier ones);
* the remote collection as an association list `Store` from document id to
  record; `setDoc` overwrites in place, `updateDoc` merges fields into an
  existing document (and fails when the document is absent), `deleteDoc`
  removes silently, `getDoc` is a point read, and `getDocs` with equality
  constraints filters the collection in enumeration order;
* the adapter instance as a `DriverState`: a connected flag (the
  `db`/`collectionRef` handles, which `connect` sets and `disconnect` nulls
  together) plus the backend store, which survives disconnection;
* wall-clock time as an explicit `now : Nat` parameter per operation
  (epoch milliseconds as read by `Date.now()`); the ISO-8601 strings produced
  by `new Date().toISOString()` are represented by their millisecond value
  `isoTime now` — the fixed-width ISO encoding is order-isomorphic to it.
  The few `new Date()` reads inside one operation are modelled at the single
  instant `now` at which the operation runs;
* `Math.random().toString(36).substring(2, 15)` as an explicit `rand : String`
  parameter;
* a fallible async operation as `Except String α`: a thrown error is
  `.error msg`, and `ensureConnected`'s message is `notConnectedMsg`.
-/

namespace HawiahFirebase

/-- A Firestore field value (the schema-less `any` of the driver). -/
inductive Value where
  | str (s : String)
  | num (n : Nat)
  | bool (b : Bool)
  | null
deriving DecidableEq

/-- A JS object: record, query and data maps all share this shape. -/
abbrev Record := List (String × Value)

/-- The bound Firestore collection: document id to document data. -/
abbrev Store := List (String × Record)

/-- Field access `obj[key]` (first binding wins; JS objects have unique keys). -/
def lookupField : Record → String → Option Value
  | [], _ => none
  | (k, v) :: rest, key => if k = key then some v else lookupField rest key

/-- Removing a key, as in `delete obj[key]`. -/
def removeField (r : Record) (k : String) : Record :=
  r.filter (fun p => p.1 ≠ k)

/-- Binding a key to a value, as the JS spread `{...r, k: v}` does: the new
binding overrides any old one. -/
def setField (r : Record) (k : String) (v : Value) : Record :=
  removeField r k ++ [(k, v)]

/-- Firestore `updateDoc` field merge: every field of `upd` overwrites the
corresponding field of `r`, other fields of `r` stay. -/
def mergeFields (r upd : Record) : Record :=
  upd.foldl (fun acc p => setField acc p.1 p.2) r

/-- Point read of a document by id. -/
def storeGet : Store → String → Option Record
  | [], _ => none
  | (k, v) :: rest, id => if k = id then some v else storeGet rest id

/-- Firestore `setDoc`: overwrite the document in place, or create it. -/
def storeSet : Store → String → Record → Store
  | [], id, r => [(id, r)]
  | (k, v) :: rest, id, r =>
      if k = id then (id, r) :: rest else (k, v) :: storeSet rest id r

/-- Firestore `deleteDoc`: remove the document; absent ids are a no-op. -/
def storeRemove (st : Store) (id : String) : Store :=
  st.filter (fun p => p.1 ≠ id)

/-- A record matches a query when every key/value pair of the query holds of
the record by equality (`where(key, '==', value)` for each entry; the empty
query builds no constraint and matches everything — both branches of
`FirebaseDriver.get` compute this). -/
def matchesQuery (r : Record) (q : Record) : Bool :=
  q.all (fun p => decide (lookupField r p.1 = some p.2))

/-- The documents `getDocs` returns for query `q`, in enumeration order. -/
def runGet (st : Store) (q : Record) : List Record :=
  (st.map Prod.snd).filter (fun r => matchesQuery r q)

/-- JS truthiness of a field value, as tested by `if (queryObj._id)`. -/
def Value.truthy : Value → Bool
  | .str s => !s.isEmpty
  | .num n => decide (n ≠ 0)
  | .bool b => b
  | .null => false

/-- Decimal digit characters, as JS number-to-string conversion emits them. -/
def digitChar (d : Nat) : Char :=
  match d with
  | 0 => '0' | 1 => '1' | 2 => '2' | 3 => '3' | 4 => '4'
  | 5 => '5' | 6 => '6' | 7 => '7' | 8 => '8' | 9 => '9'
  | _ => '*'

/-- Decimal representation of a natural number, as `${Date.now()}` prints the
time component of a generated id. -/
def natToString (n : Nat) : String :=
  if n = 0 then "0" else List.asString (((Nat.digits 10 n).map digitChar).reverse)

/-- The ISO-8601 timestamp `new Date(t).toISOString()`, represented by its
epoch-millisecond value (the fixed-width ISO string is order-isomorphic). -/
def isoTime (t : Nat) : Value := Value.num t

/-- The driver instance: the `db`/`app`/`collectionRef` handles collapse to
one connected flag (they are set and nulled together), and `store` is the
remote collection, which outlives `disconnect`. -/
structure DriverState where
  connected : Bool
  store : Store
deriving DecidableEq

/-- The message `ensureConnected` throws. -/
def notConnectedMsg : String := "Database not connected. Call connect() first."

/-- The error a Firestore `doc()` call raises on an invalid (empty or
non-string) document path, and `updateDoc` on a missing document. -/
def invalidDocMsg : String := "Invalid document reference"

/-- Firestore `updateDoc` rejects when the target document does not exist. -/
def noDocMsg : String := "No document to update"

/-- FirebaseDriver.connect: initialize handles, binding the collection. -/
def connect (s : DriverState) : DriverState :=
  DriverState.mk true s.store

/-- FirebaseDriver.disconnect: null the local handles; the backend keeps its
data. -/
def disconnect (s : DriverState) : DriverState :=
  DriverState.mk false s.store

/-- FirebaseDriver.generateId: `${Date.now()}_${Math.random().toString(36).substring(2, 15)}`. -/
def generateId (now : Nat) (rand : String) : String :=
  natToString now ++ "_" ++ rand

/-- The record `set` builds: `{...data, _id: id, _createdAt: iso, _updatedAt: iso}`
(both `new Date()` reads modelled at the instant `now`). -/
def buildRecord (data : Record) (id : String) (now : Nat) : Record :=
  setField (setField (setField data "_id" (Value.str id))
    "_createdAt" (isoTime now)) "_updatedAt" (isoTime now)

/-- FirebaseDriver.set: guard connection, generate an id, build the stamped
record, persist it with `setDoc`, and return it. -/
def setOp (s : DriverState) (now : Nat) (rand : String) (data : Record) :
    Except String (DriverState × Record) :=
  if s.connected then
    Except.ok
      (DriverState.mk true
        (storeSet s.store (generateId now rand) (buildRecord data (generateId now rand) now)),
       buildRecord data (generateId now rand) now)
  else Except.error notConnectedMsg

/-- FirebaseDriver.get: guard connection, then filter the collection by the
equality constraints (the empty query reads the whole collection). -/
def getOp (s : DriverState) (q : Record) : Except String (List Record) :=
  if s.connected then Except.ok (runGet s.store q)
  else Except.error notConnectedMsg

/-- FirebaseDriver.getOne: guard connection; when `queryObj._id` is truthy,
point-read that document (`doc()` throws on a non-string id path, and a
falsy `_id` — absent, empty string, zero, false or null — falls through to
`get`); otherwise return the first `get` result or null. -/
def getOneOp (s : DriverState) (q : Record) : Except String (Option Record) :=
  if s.connected then
    match lookupField q "_id" with
    | some v =>
        if v.truthy then
          match v with
          | Value.str id => Except.ok (storeGet s.store id)
          | _ => Except.error invalidDocMsg
        else Except.ok (runGet s.store q).head?
    | none => Except.ok (runGet s.store q).head?
  else Except.error notConnectedMsg

/-- The per-record update payload: `{...data, _updatedAt: iso}` followed by
`delete updateData._id`. -/
def mkUpdateData (data : Record) (now : Nat) : Record :=
  removeField (setField data "_updatedAt" (isoTime now)) "_id"

/-- The body of FirebaseDriver.update's loop over the fetched snapshot:
address each record by its own `_id` field (`doc()` throws when that field is
missing, non-string or empty), merge the payload with `updateDoc` (which
rejects a missing document), and count the successes. -/
def updateLoop (st : Store) (upd : Record) : List Record → Except String (Store × Nat)
  | [] => Except.ok (st, 0)
  | r :: rest =>
      match lookupField r "_id" with
      | some (Value.str id) =>
          if id.isEmpty then Except.error invalidDocMsg
          else
            match storeGet st id with
            | some cur =>
                match updateLoop (storeSet st id (mergeFields cur upd)) upd rest with
                | Except.ok (st', n) => Except.ok (st', n + 1)
                | Except.error e => Except.error e
            | none => Except.error noDocMsg
      | _ => Except.error invalidDocMsg

/-- FirebaseDriver.update: guard connection, fetch the matching snapshot via
`get`, then run the update loop. -/
def updateOp (s : DriverState) (now : Nat) (q data : Record) :
    Except String (DriverState × Nat) :=
  if s.connected then
    match updateLoop s.store (mkUpdateData data now) (runGet s.store q) with
    | Except.ok (st', n) => Except.ok (DriverState.mk true st', n)
    | Except.error e => Except.error e
  else Except.error notConnectedMsg

/-- The body of FirebaseDriver.delete's loop over the fetched snapshot:
address each record by its own `_id` field and `deleteDoc` it (deleting an
absent document succeeds silently). -/
def deleteLoop (st : Store) : List Record → Except String (Store × Nat)
  | [] => Except.ok (st, 0)
  | r :: rest =>
      match lookupField r "_id" with
      | some (Value.str id) =>
          if id.isEmpty then Except.error invalidDocMsg
          else
            match deleteLoop (storeRemove st id) rest with
            | Except.ok (st', n) => Except.ok (st', n + 1)
            | Except.error e => Except.error e
      | _ => Except.error invalidDocMsg

/-- FirebaseDriver.delete: guard connection, fetch the matching snapshot via
`get`, then run the delete loop. -/
def deleteOp (s : DriverState) (q : Record) : Except String (DriverState × Nat) :=
  if s.connected then
    match deleteLoop s.store (runGet s.store q) with
    | Except.ok (st', n) => Except.ok (DriverState.mk true st', n)
    | Except.error e => Except.error e
  else Except.error notConnectedMsg

/-- FirebaseDriver.exists: guard connection, then `getOne(query) !== null`. -/
def existsOp (s : DriverState) (q : Record) : Except String Bool :=
  if s.connected then
    match getOneOp s q with
    | Except.ok r => Except.ok r.isSome
    | Except.error e => Except.error e
  else Except.error notConnectedMsg

/-- FirebaseDriver.count: guard connection, then the length of `get(query)`. -/
def countOp (s : DriverState) (q : Record) : Except String Nat :=
  if s.connected then Except.ok (runGet s.store q).length
  else Except.error notConnectedMsg

/-- FirebaseDriver.clear: guard connection, then `delete({})` discarding the
count. -/
def clearOp (s : DriverState) : Except String DriverState :=
  if s.connected then
    match deleteOp s [] with
    | Except.ok (s', _) => Except.ok s'
    | Except.error e => Except.error e
  else Except.error notConnectedMsg

/-- Keys of an association list are pairwise distinct. -/
def distinctKeys {α : Type} (l : List (String × α)) : Prop :=
  l.Pairwise (fun a b => a.1 ≠ b.1)

/-- Well-formed collection: document ids are pairwise distinct and non-empty,
and each document's `_id` field names its own id — the shape every document
written through this adapter has. -/
def WFStore (st : Store) : Prop :=
  distinctKeys st ∧
    ∀ p ∈ st, p.1 ≠ "" ∧ lookupField p.2 "_id" = some (Value.str p.1)

instance {α : Type} (l : List (String × α)) : Decidable (distinctKeys l) := by
  unfold distinctKeys; infer_instance

instance (st : Store) : Decidable (WFStore st) := by
  unfold WFStore; exact instDecidableAnd

/-! ### Lemmas about field access and the JS spread -/

theorem lookupField_append (l1 l2 : Record) (k : String) :
    lookupField (l1 ++ l2) k =
      match lookupField l1 k with
      | some v => some v
      | none => lookupField l2 k := by
  induction l1 with
  | nil => rfl
  | cons p rest ih =>
      by_cases hp : p.1 = k
      · simp [lookupField, hp]
      · simp only [List.cons_append, lookupField, if_neg hp]
        exact ih

theorem lookupField_removeField_self (r : Record) (k : String) :
    lookupField (removeField r k) k = none := by
  induction r with
  | nil => rfl
  | cons p rest ih =>
      rw [removeField, List.filter_cons]
      by_cases hp : p.1 = k
      · rw [if_neg (by simp [hp])]
        exact ih
      · rw [if_pos (by simp [hp])]
        rw [lookupField, if_neg hp]
        exact ih

theorem lookupField_removeField_ne (r : Record) (k k' : String) (h : k' ≠ k) :
    lookupField (removeField r k) k' = lookupField r k' := by
  induction r with
  | nil => rfl
  | cons p rest ih =>
      rw [removeField, List.filter_cons]
      by_cases hp : p.1 = k
      · rw [if_neg (by simp [hp])]
        rw [lookupField, if_neg (fun e : p.1 = k' => h (e.symm.trans hp))]
        exact ih
      · rw [if_pos (by simp [hp])]
        by_cases hp' : p.1 = k'
        · rw [lookupField, if_pos hp', lookupField, if_pos hp']
        · rw [lookupField, if_neg hp', lookupField, if_neg hp']
          exact ih

theorem lookupField_setField_self (r : Record) (k : String) (v : Value) :
    lookupField (setField r k v) k = some v := by
  rw [setField, lookupField_append, lookupField_removeField_self]
  simp [lookupField]

theorem lookupField_setField_ne (r : Record) (k k' : String) (v : Value)
    (h : k' ≠ k) : lookupField (setField r k v) k' = lookupField r k' := by
  rw [setField, lookupField_append, lookupField_removeField_ne r k k' h]
  cases hl : lookupField r k' with
  | some v' => rfl
  | none => simp [lookupField, fun e : k = k' => h e.symm, Ne.symm h]

theorem distinctKeys_nil {α : Type} : distinctKeys ([] : List (String × α)) :=
  List.Pairwise.nil

theorem distinctKeys_removeField (r : Record) (k : String)
    (h : distinctKeys r) : distinctKeys (removeField r k) :=
  List.Pairwise.sublist (List.filter_sublist r) h

theorem notMem_keys_lookupField {r : Record} {k : String}
    (h : k ∉ r.map Prod.fst) : lookupField r k = none := by
  induction r with
  | nil => rfl
  | cons p rest ih =>
      simp only [List.map_cons, List.mem_cons] at h
      push_neg at h
      simp only [lookupField, if_neg (fun e : p.1 = k => h.1 e.symm)]
      exact ih h.2

theorem distinctKeys_setField (r : Record) (k : String) (v : Value)
    (h : distinctKeys r) : distinctKeys (setField r k v) := by
  unfold setField
  induction r with
  | nil => simp [removeField, distinctKeys]
  | cons p rest ih =>
      rcases (List.pairwise_cons.mp h) with ⟨hp, hrest⟩
      by_cases hpk : p.1 = k
      · simpa [removeField, hpk] using ih hrest
      · have := ih hrest
        unfold distinctKeys at this ⊢
        simp only [removeField] at this ⊢
        rw [List.filter_cons, if_pos (by simpa using hpk)]
        rw [List.cons_append, List.pairwise_cons]
        refine ⟨?_, this⟩
        intro b hb
        rcases List.mem_append.mp hb with hb | hb
        · exact hp b (List.mem_of_mem_filter hb)
        · simp only [List.mem_singleton] at hb
          subst hb; exact hpk

/-! ### Lemmas about the `updateDoc` merge -/

theorem mergeFields_cons (r : Record) (p : String × Value) (rest : Record) :
    mergeFields r (p :: rest) = mergeFields (setField r p.1 p.2) rest := rfl

theorem lookupField_mergeFields_none (r upd : Record) (k : String)
    (h : lookupField upd k = none) :
    lookupField (mergeFields r upd) k = lookupField r k := by
  induction upd generalizing r with
  | nil => rfl
  | cons p rest ih =>
      simp only [lookupField] at h
      by_cases hp : p.1 = k
      · simp [hp] at h
      · rw [if_neg hp] at h
        rw [mergeFields_cons, ih _ h, lookupField_setField_ne _ _ _ _ (fun e => hp e.symm)]

theorem lookupField_mergeFields_some (r upd : Record) (k : String) (v : Value)
    (hd : distinctKeys upd) (h : lookupField upd k = some v) :
    lookupField (mergeFields r upd) k = some v := by
  induction upd generalizing r with
  | nil => simp [lookupField] at h
  | cons p rest ih =>
      rcases (List.pairwise_cons.mp hd) with ⟨hp, hrest⟩
      simp only [lookupField] at h
      by_cases hpk : p.1 = k
      · subst hpk
        rw [if_pos rfl] at h
        have hnone : lookupField rest p.1 = none := by
          apply notMem_keys_lookupField
          intro hmem
          rcases List.mem_map.mp hmem with ⟨q, hq, hq1⟩
          exact hp q hq hq1.symm
        rw [mergeFields_cons, lookupField_mergeFields_none _ _ _ hnone,
          lookupField_setField_self r p.1 p.2]
        exact h
      · rw [if_neg hpk] at h
        rw [mergeFields_cons]
        exact ih _ hrest h

/-! ### Lemmas about the store -/

theorem storeGet_storeSet_self (st : Store) (id : String) (r : Record) :
    storeGet (storeSet st id r) id = some r := by
  induction st with
  | nil => simp [storeSet, storeGet]
  | cons p rest ih =>
      by_cases hp : p.1 = id
      · simp [storeSet, hp, storeGet]
      · simp [storeSet, hp, storeGet, ih]

theorem storeGet_storeSet_ne (st : Store) (id id' : String) (r : Record)
    (h : id' ≠ id) : storeGet (storeSet st id r) id' = storeGet st id' := by
  induction st with
  | nil => simp [storeSet, storeGet, Ne.symm h]
  | cons p rest ih =>
      by_cases hp : p.1 = id
      · subst hp
        rw [storeSet, if_pos rfl, storeGet, if_neg (fun e : p.1 = id' => h e.symm),
          storeGet, if_neg (fun e : p.1 = id' => h e.symm)]
      · rw [storeSet, if_neg hp]
        by_cases hp' : p.1 = id'
        · rw [storeGet, if_pos hp', storeGet, if_pos hp']
        · rw [storeGet, if_neg hp', storeGet, if_neg hp']
          exact ih

theorem keys_storeSet (st : Store) (id : String) (r : Record) (k : String) :
    k ∈ (storeSet st id r).map Prod.fst ↔ k ∈ st.map Prod.fst ∨ k = id := by
  induction st with
  | nil => simp [storeSet]
  | cons p rest ih =>
      by_cases hp : p.1 = id
      · subst hp
        simp [storeSet]
        tauto
      · simp [storeSet, hp, ih]
        tauto

theorem distinctKeys_storeSet (st : Store) (id : String) (r : Record)
    (h : distinctKeys st) : distinctKeys (storeSet st id r) := by
  induction st with
  | nil => simp [storeSet, distinctKeys]
  | cons p rest ih =>
      rcases (List.pairwise_cons.mp h) with ⟨hp, hrest⟩
      by_cases hpk : p.1 = id
      · subst hpk
        unfold distinctKeys
        rw [storeSet, if_pos rfl, List.pairwise_cons]
        exact ⟨hp, hrest⟩
      · unfold distinctKeys
        rw [storeSet, if_neg hpk, List.pairwise_cons]
        constructor
        · intro b hb
          rcases (List.mem_map.mp (List.mem_map_of_mem Prod.fst hb))
            with ⟨q, hq, hq1⟩
          have : b.1 ∈ (storeSet rest id r).map Prod.fst :=
            List.mem_map_of_mem Prod.fst hb
          rcases (keys_storeSet rest id r b.1).mp this with hmem | heq
          · rcases List.mem_map.mp hmem with ⟨q', hq', hq1'⟩
            exact hq1' ▸ hp q' hq'
          · exact heq ▸ hpk
        · exact ih hrest

theorem storeGet_of_mem {st : Store} {id : String} {r : Record}
    (hd : distinctKeys st) (h : (id, r) ∈ st) : storeGet st id = some r := by
  induction st with
  | nil => simp at h
  | cons p rest ih =>
      rcases (List.pairwise_cons.mp hd) with ⟨hp, hrest⟩
      rcases List.mem_cons.mp h with h | h
      · subst h; simp [storeGet]
      · have hne : p.1 ≠ id := hp (id, r) h
        simp only [storeGet, if_neg hne]
        exact ih hrest h

theorem mem_of_storeGet {st : Store} {id : String} {r : Record}
    (h : storeGet st id = some r) : (id, r) ∈ st := by
  induction st with
  | nil => simp [storeGet] at h
  | cons p rest ih =>
      simp only [storeGet] at h
      by_cases hp : p.1 = id
      · rw [if_pos hp] at h
        have hpr : p = (id, r) := by
          cases p
          injection h with h2
          simp_all
        rw [hpr]
        exact List.mem_cons_self _ _
      · rw [if_neg hp] at h
        exact List.mem_cons_of_mem _ (ih h)

theorem storeGet_storeRemove_self (st : Store) (id : String) :
    storeGet (storeRemove st id) id = none := by
  induction st with
  | nil => rfl
  | cons p rest ih =>
      rw [storeRemove, List.filter_cons]
      by_cases hp : p.1 = id
      · rw [if_neg (by simp [hp])]
        exact ih
      · rw [if_pos (by simp [hp])]
        rw [storeGet, if_neg hp]
        exact ih

theorem storeGet_storeRemove_ne (st : Store) (id id' : String) (h : id' ≠ id) :
    storeGet (storeRemove st id) id' = storeGet st id' := by
  induction st with
  | nil => rfl
  | cons p rest ih =>
      rw [storeRemove, List.filter_cons]
      by_cases hp : p.1 = id
      · rw [if_neg (by simp [hp])]
        rw [storeGet, if_neg (fun e : p.1 = id' => h (e.symm.trans hp))]
        exact ih
      · rw [if_pos (by simp [hp])]
        by_cases hp' : p.1 = id'
        · rw [storeGet, if_pos hp', storeGet, if_pos hp']
        · rw [storeGet, if_neg hp', storeGet, if_neg hp']
          exact ih

theorem distinctKeys_storeRemove (st : Store) (id : String)
    (h : distinctKeys st) : distinctKeys (storeRemove st id) :=
  List.Pairwise.sublist (List.filter_sublist st) h

theorem store_eq_nil_of_forall_none {st : Store}
    (h : ∀ id, storeGet st id = none) : st = [] := by
  cases st with
  | nil => rfl
  | cons p rest =>
      have := h p.1
      simp [storeGet] at this

/-! ### Lemmas about generated identifiers -/

theorem digitChar_ne_underscore (d : Nat) : digitChar d ≠ '_' := by
  unfold digitChar
  split <;> decide

theorem digitChar_injOn (d d' : Nat) (hd : d < 10) (hd' : d' < 10)
    (h : digitChar d = digitChar d') : d = d' := by
  interval_cases d <;> interval_cases d' <;> simp_all [digitChar]

theorem map_digitChar_inj (l l' : List Nat)
    (hl : ∀ x ∈ l, x < 10) (hl' : ∀ x ∈ l', x < 10)
    (h : l.map digitChar = l'.map digitChar) : l = l' := by
  induction l generalizing l' with
  | nil => cases l' <;> simp_all
  | cons a rest ih =>
      cases l' with
      | nil => simp_all
      | cons a' rest' =>
          simp only [List.map_cons, List.cons.injEq] at h
          have ha : a = a' :=
            digitChar_injOn a a' (hl a (by simp)) (hl' a' (by simp)) h.1
          have hr : rest = rest' :=
            ih rest' (fun x hx => hl x (List.mem_cons_of_mem _ hx))
              (fun x hx => hl' x (List.mem_cons_of_mem _ hx)) h.2
          rw [ha, hr]

theorem natToString_underscore_free (n : Nat) :
    '_' ∉ (natToString n).data := by
  unfold natToString
  by_cases hn : n = 0
  · rw [if_pos hn]
    decide
  · rw [if_neg hn]
    intro hmem
    have : '_' ∈ (Nat.digits 10 n).map digitChar := by
      have h1 : (List.asString (((Nat.digits 10 n).map digitChar).reverse)).data
          = ((Nat.digits 10 n).map digitChar).reverse := rfl
      rw [h1] at hmem
      exact List.mem_reverse.mp hmem
    rcases List.mem_map.mp this with ⟨d, _, hd⟩
    exact digitChar_ne_underscore d hd

theorem natToString_inj (n m : Nat) (h : natToString n = natToString m) :
    n = m := by
  unfold natToString at h
  by_cases hn : n = 0 <;> by_cases hm : m = 0
  · rw [hn, hm]
  · exfalso
    rw [if_pos hn, if_neg hm] at h
    have hdata : ['0'] = ((Nat.digits 10 m).map digitChar).reverse :=
      congrArg String.data h
    have hlen : (Nat.digits 10 m).length = 1 := by
      have := congrArg List.length hdata
      simpa using this.symm
    rcases List.length_eq_one.mp hlen with ⟨d, hd⟩
    have hdval : digitChar d = '0' := by
      rw [hd] at hdata
      simpa using hdata.symm
    have hdlt : d < 10 :=
      Nat.digits_lt_base (by norm_num) (hd ▸ List.mem_singleton_self d)
    have : d = 0 := digitChar_injOn d 0 hdlt (by norm_num) (by simpa using hdval)
    have hm0 : m = Nat.ofDigits 10 (Nat.digits 10 m) := (Nat.ofDigits_digits 10 m).symm
    rw [hd, this] at hm0
    simp [Nat.ofDigits] at hm0
    exact hm hm0
  · exfalso
    rw [if_neg hn, if_pos hm] at h
    have hdata : ((Nat.digits 10 n).map digitChar).reverse = ['0'] :=
      congrArg String.data h
    have hlen : (Nat.digits 10 n).length = 1 := by
      have := congrArg List.length hdata
      simpa using this
    rcases List.length_eq_one.mp hlen with ⟨d, hd⟩
    have hdval : digitChar d = '0' := by
      rw [hd] at hdata
      simpa using hdata
    have hdlt : d < 10 :=
      Nat.digits_lt_base (by norm_num) (hd ▸ List.mem_singleton_self d)
    have : d = 0 := digitChar_injOn d 0 hdlt (by norm_num) (by simpa using hdval)
    have hn0 : n = Nat.ofDigits 10 (Nat.digits 10 n) := (Nat.ofDigits_digits 10 n).symm
    rw [hd, this] at hn0
    simp [Nat.ofDigits] at hn0
    exact hn hn0
  · rw [if_neg hn, if_neg hm] at h
    have hdata : ((Nat.digits 10 n).map digitChar).reverse
        = ((Nat.digits 10 m).map digitChar).reverse :=
      congrArg String.data h
    have hmaps : (Nat.digits 10 n).map digitChar = (Nat.digits 10 m).map digitChar :=
      List.reverse_injective hdata
    have hdigits : Nat.digits 10 n = Nat.digits 10 m :=
      map_digitChar_inj _ _
        (fun x hx => Nat.digits_lt_base (by norm_num) hx)
        (fun x hx => Nat.digits_lt_base (by norm_num) hx) hmaps
    have := congrArg (Nat.ofDigits 10) hdigits
    rwa [Nat.ofDigits_digits, Nat.ofDigits_digits] at this

theorem append_underscore_inj (l1 l2 r1 r2 : List Char)
    (h1 : '_' ∉ l1) (h2 : '_' ∉ l2)
    (h : l1 ++ '_' :: r1 = l2 ++ '_' :: r2) : l1 = l2 ∧ r1 = r2 := by
  induction l1 generalizing l2 with
  | nil =>
      cases l2 with
      | nil => simpa using h
      | cons b bs =>
          exfalso
          simp only [List.nil_append, List.cons_append, List.cons.injEq] at h
          exact h2 (h.1 ▸ List.mem_cons_self b bs)
  | cons a as ih =>
      cases l2 with
      | nil =>
          exfalso
          simp only [List.cons_append, List.nil_append, List.cons.injEq] at h
          exact h1 (h.1 ▸ List.mem_cons_self a as)
      | cons b bs =>
          simp only [List.cons_append, List.cons.injEq] at h
          have := ih bs (fun hm => h1 (List.mem_cons_of_mem a hm))
            (fun hm => h2 (List.mem_cons_of_mem b hm)) h.2
          exact ⟨by rw [h.1, this.1], this.2⟩

theorem generateId_data (t : Nat) (r : String) :
    (generateId t r).data = (natToString t).data ++ '_' :: r.data := by
  unfold generateId
  rw [String.data_append, String.data_append]
  simp

theorem generateId_inj (t t' : Nat) (r r' : String)
    (h : generateId t r = generateId t' r') : t = t' ∧ r = r' := by
  have hdata := congrArg String.data h
  rw [generateId_data, generateId_data] at hdata
  have := append_underscore_inj _ _ _ _
    (natToString_underscore_free t) (natToString_underscore_free t') hdata
  exact ⟨natToString_inj t t' (String.ext this.1), String.ext this.2⟩

theorem generateId_ne_of_time_lt (t t' : Nat) (r r' : String) (h : t ≠ t') :
    generateId t r ≠ generateId t' r' :=
  fun e => h (generateId_inj t t' r r' e).1

theorem generateId_not_empty (t : Nat) (r : String) :
    (generateId t r).isEmpty = false := by
  have hdata := generateId_data t r
  rw [Bool.eq_false_iff]
  intro he
  rw [String.isEmpty_iff] at he
  rw [he] at hdata
  have : ([] : List Char) = (natToString t).data ++ '_' :: r.data := hdata
  have := congrArg List.length this
  simp at this
  omega

/-! ### Characterizing the snapshot, the update loop and the delete loop -/

theorem storeGet_eq_none_of_notMem {st : Store} {k : String}
    (h : k ∉ st.map Prod.fst) : storeGet st k = none := by
  induction st with
  | nil => rfl
  | cons p rest ih =>
      simp only [List.map_cons, List.mem_cons] at h
      push_neg at h
      rw [storeGet, if_neg (fun e : p.1 = k => h.1 e.symm)]
      exact ih h.2

/-- The entries of the collection whose documents match the query; `getDocs`
returns exactly their data, in order. -/
def matchedEntries (st : Store) (q : Record) : Store :=
  st.filter (fun p => matchesQuery p.2 q)

theorem runGet_eq_map_matchedEntries (st : Store) (q : Record) :
    runGet st q = (matchedEntries st q).map Prod.snd := by
  unfold runGet matchedEntries
  induction st with
  | nil => rfl
  | cons p rest ih =>
      rw [List.map_cons, List.filter_cons, List.filter_cons]
      by_cases hm : matchesQuery p.2 q
      · rw [if_pos (by simpa using hm), if_pos (by simpa using hm), List.map_cons, ih]
      · rw [if_neg (by simpa using hm), if_neg (by simpa using hm), ih]

theorem distinctKeys_matchedEntries (st : Store) (q : Record)
    (h : distinctKeys st) : distinctKeys (matchedEntries st q) :=
  List.Pairwise.sublist (List.filter_sublist st) h

theorem mem_matchedEntries {st : Store} {q : Record} {p : String × Record}
    (h : p ∈ matchedEntries st q) : p ∈ st ∧ matchesQuery p.2 q = true := by
  have := List.mem_filter.mp h
  simpa using this

theorem storeGet_matchedEntries (st : Store) (q : Record) (id : String)
    (hd : distinctKeys st) :
    storeGet (matchedEntries st q) id =
      match storeGet st id with
      | some r => if matchesQuery r q then some r else none
      | none => none := by
  induction st with
  | nil => rfl
  | cons p rest ih =>
      rcases (List.pairwise_cons.mp hd) with ⟨hp, hrest⟩
      rw [matchedEntries, List.filter_cons]
      by_cases hm : matchesQuery p.2 q
      · rw [if_pos (by simpa using hm)]
        by_cases hid : p.1 = id
        · rw [storeGet, if_pos hid, storeGet, if_pos hid]
          simp [hm]
        · rw [storeGet, if_neg hid, storeGet, if_neg hid]
          exact ih hrest
      · rw [if_neg (by simpa using hm)]
        by_cases hid : p.1 = id
        · subst hid
          have hnone : storeGet rest p.1 = none := by
            apply storeGet_eq_none_of_notMem
            intro hmem
            rcases List.mem_map.mp hmem with ⟨b, hb, hb1⟩
            exact hp b hb hb1.symm
          rw [storeGet, if_pos rfl]
          have hfil : storeGet (matchedEntries rest q) p.1 = none := by
            rw [ih hrest, hnone]
          rw [matchedEntries] at hfil
          rw [hfil]
          simp [hm]
        · rw [storeGet, if_neg hid]
          exact ih hrest

theorem mem_storeSet {st : Store} {id : String} {r : Record} {p : String × Record}
    (h : p ∈ storeSet st id r) : p ∈ st ∨ p = (id, r) := by
  induction st with
  | nil =>
      right
      simpa [storeSet] using h
  | cons e rest ih =>
      by_cases he : e.1 = id
      · rw [storeSet, if_pos he] at h
        rcases List.mem_cons.mp h with h | h
        · right; exact h
        · left; exact List.mem_cons_of_mem _ h
      · rw [storeSet, if_neg he] at h
        rcases List.mem_cons.mp h with h | h
        · left; exact h ▸ List.mem_cons_self _ _
        · rcases ih h with h | h
          · left; exact List.mem_cons_of_mem _ h
          · right; exact h

theorem string_isEmpty_false_of_ne {s : String} (h : s ≠ "") :
    s.isEmpty = false := by
  rw [Bool.eq_false_iff]
  intro he
  rw [String.isEmpty_iff] at he
  exact h he

theorem updateLoop_ok (upd : Record) (entries : List (String × Record)) :
    ∀ (st : Store), distinctKeys st → distinctKeys entries →
    (∀ p ∈ entries, p.1 ≠ "" ∧ lookupField p.2 "_id" = some (Value.str p.1) ∧
      storeGet st p.1 = some p.2) →
    ∃ st', updateLoop st upd (entries.map Prod.snd) = Except.ok (st', entries.length) ∧
      distinctKeys st' ∧
      ∀ id, storeGet st' id =
        match storeGet entries id with
        | some r => some (mergeFields r upd)
        | none => storeGet st id := by
  induction entries with
  | nil =>
      intro st hst _ _
      exact ⟨st, rfl, hst, fun id => rfl⟩
  | cons e rest ih =>
      intro st hst hdk hprops
      rcases (List.pairwise_cons.mp hdk) with ⟨hhead, hrest⟩
      rcases hprops e (List.mem_cons_self e rest) with ⟨hne, hid, hget⟩
      have hempty : e.1.isEmpty = false := string_isEmpty_false_of_ne hne
      have hst1 : distinctKeys (storeSet st e.1 (mergeFields e.2 upd)) :=
        distinctKeys_storeSet st e.1 _ hst
      have hprops1 : ∀ p ∈ rest, p.1 ≠ "" ∧
          lookupField p.2 "_id" = some (Value.str p.1) ∧
          storeGet (storeSet st e.1 (mergeFields e.2 upd)) p.1 = some p.2 := by
        intro p hp
        rcases hprops p (List.mem_cons_of_mem e hp) with ⟨h1, h2, h3⟩
        refine ⟨h1, h2, ?_⟩
        rw [storeGet_storeSet_ne st e.1 p.1 _ (fun e' => hhead p hp e'.symm)]
        exact h3
      rcases ih (storeSet st e.1 (mergeFields e.2 upd)) hst1 hrest hprops1
        with ⟨st', heq, hst', hpost⟩
      refine ⟨st', ?_, hst', ?_⟩
      · rw [List.map_cons, updateLoop, hid]
        simp [hempty, hget, heq]
      · intro id
        by_cases hide : e.1 = id
        · subst hide
          have hrnone : storeGet rest e.1 = none := by
            apply storeGet_eq_none_of_notMem
            intro hmem
            rcases List.mem_map.mp hmem with ⟨b, hb, hb1⟩
            exact hhead b hb hb1.symm
          rw [storeGet, if_pos rfl]
          rw [hpost e.1, hrnone]
          exact storeGet_storeSet_self st e.1 _
        · rw [storeGet, if_neg hide]
          rw [hpost id]
          cases hr : storeGet rest id with
          | some r => rfl
          | none =>
              rw [storeGet_storeSet_ne st e.1 id _ (fun e' => hide e'.symm)]

theorem deleteLoop_ok (entries : List (String × Record)) :
    ∀ (st : Store),
    (∀ p ∈ entries, p.1 ≠ "" ∧ lookupField p.2 "_id" = some (Value.str p.1)) →
    ∃ st', deleteLoop st (entries.map Prod.snd) = Except.ok (st', entries.length) ∧
      ∀ id, storeGet st' id =
        match storeGet entries id with
        | some _ => none
        | none => storeGet st id := by
  induction entries with
  | nil =>
      intro st _
      exact ⟨st, rfl, fun id => rfl⟩
  | cons e rest ih =>
      intro st hprops
      rcases hprops e (List.mem_cons_self e rest) with ⟨hne, hid⟩
      have hempty : e.1.isEmpty = false := string_isEmpty_false_of_ne hne
      rcases ih (storeRemove st e.1)
        (fun p hp => hprops p (List.mem_cons_of_mem e hp)) with ⟨st', heq, hpost⟩
      refine ⟨st', ?_, ?_⟩
      · rw [List.map_cons, deleteLoop, hid]
        simp [hempty, heq]
      · intro id
        by_cases hide : e.1 = id
        · subst hide
          rw [storeGet, if_pos rfl]
          rw [hpost e.1]
          cases hr : storeGet rest e.1 with
          | some r => rfl
          | none => exact storeGet_storeRemove_self st e.1
        · rw [storeGet, if_neg hide]
          rw [hpost id]
          cases hr : storeGet rest id with
          | some r => rfl
          | none =>
              rw [storeGet_storeRemove_ne st e.1 id (fun e' => hide e'.symm)]

/-! ### Field content of the records the driver builds -/

theorem buildRecord_id (data : Record) (id : String) (now : Nat) :
    lookupField (buildRecord data id now) "_id" = some (Value.str id) := by
  unfold buildRecord
  rw [lookupField_setField_ne _ _ _ _ (by decide),
    lookupField_setField_ne _ _ _ _ (by decide),
    lookupField_setField_self]

theorem buildRecord_createdAt (data : Record) (id : String) (now : Nat) :
    lookupField (buildRecord data id now) "_createdAt" = some (isoTime now) := by
  unfold buildRecord
  rw [lookupField_setField_ne _ _ _ _ (by decide), lookupField_setField_self]

theorem buildRecord_updatedAt (data : Record) (id : String) (now : Nat) :
    lookupField (buildRecord data id now) "_updatedAt" = some (isoTime now) := by
  unfold buildRecord
  rw [lookupField_setField_self]

theorem buildRecord_other (data : Record) (id : String) (now : Nat) (k : String)
    (h1 : k ≠ "_id") (h2 : k ≠ "_createdAt") (h3 : k ≠ "_updatedAt") :
    lookupField (buildRecord data id now) k = lookupField data k := by
  unfold buildRecord
  rw [lookupField_setField_ne _ _ _ _ h3, lookupField_setField_ne _ _ _ _ h2,
    lookupField_setField_ne _ _ _ _ h1]

theorem mkUpdateData_id (data : Record) (now : Nat) :
    lookupField (mkUpdateData data now) "_id" = none :=
  lookupField_removeField_self _ _

theorem mkUpdateData_updatedAt (data : Record) (now : Nat) :
    lookupField (mkUpdateData data now) "_updatedAt" = some (isoTime now) := by
  unfold mkUpdateData
  rw [lookupField_removeField_ne _ _ _ (by decide), lookupField_setField_self]

theorem mkUpdateData_other (data : Record) (now : Nat) (k : String)
    (h1 : k ≠ "_id") (h2 : k ≠ "_updatedAt") :
    lookupField (mkUpdateData data now) k = lookupField data k := by
  unfold mkUpdateData
  rw [lookupField_removeField_ne _ _ _ h1, lookupField_setField_ne _ _ _ _ h2]

theorem distinctKeys_mkUpdateData (data : Record) (now : Nat)
    (h : distinctKeys data) : distinctKeys (mkUpdateData data now) :=
  distinctKeys_removeField _ _ (distinctKeys_setField _ _ _ h)

theorem generateId_ne_empty_str (t : Nat) (r : String) : generateId t r ≠ "" := by
  intro h
  have hne := generateId_not_empty t r
  rw [h] at hne
  exact absurd hne (by decide)

/-! ### Characterization of the operations on a connected adapter -/

theorem setOp_ok (s : DriverState) (now : Nat) (rand : String) (data : Record)
    (hc : s.connected = true) :
    setOp s now rand data = Except.ok
      (DriverState.mk true (storeSet s.store (generateId now rand)
         (buildRecord data (generateId now rand) now)),
       buildRecord data (generateId now rand) now) := by
  rw [setOp, if_pos hc]

theorem WFStore_storeSet_buildRecord (st : Store) (now : Nat) (rand : String)
    (data : Record) (hwf : WFStore st) :
    WFStore (storeSet st (generateId now rand)
      (buildRecord data (generateId now rand) now)) := by
  rcases hwf with ⟨hdk, hprops⟩
  refine ⟨distinctKeys_storeSet st _ _ hdk, ?_⟩
  intro p hp
  rcases mem_storeSet hp with hmem | heq
  · exact hprops p hmem
  · subst heq
    exact ⟨generateId_ne_empty_str now rand, buildRecord_id data _ now⟩

theorem updateOp_ok (s : DriverState) (now : Nat) (q d : Record)
    (hc : s.connected = true) (hwf : WFStore s.store) :
    ∃ st', updateOp s now q d
        = Except.ok (DriverState.mk true st', (runGet s.store q).length) ∧
      distinctKeys st' ∧
      (∀ id r, storeGet s.store id = some r →
        storeGet st' id = some (if matchesQuery r q then
          mergeFields r (mkUpdateData d now) else r)) ∧
      (∀ id, storeGet s.store id = none → storeGet st' id = none) := by
  rcases hwf with ⟨hdk, hprops⟩
  have hpm : ∀ p ∈ matchedEntries s.store q, p.1 ≠ "" ∧
      lookupField p.2 "_id" = some (Value.str p.1) ∧
      storeGet s.store p.1 = some p.2 := by
    intro p hp
    rcases mem_matchedEntries hp with ⟨hmem, _⟩
    rcases hprops p hmem with ⟨h1, h2⟩
    exact ⟨h1, h2, storeGet_of_mem hdk hmem⟩
  rcases updateLoop_ok (mkUpdateData d now) (matchedEntries s.store q) s.store
    hdk (distinctKeys_matchedEntries _ _ hdk) hpm with ⟨st', heq, hst', hpost⟩
  refine ⟨st', ?_, hst', ?_, ?_⟩
  · rw [updateOp, if_pos hc, runGet_eq_map_matchedEntries, heq]
    simp
  · intro id r hr
    by_cases hm : matchesQuery r q
    · rw [if_pos hm]
      have hme : storeGet (matchedEntries s.store q) id = some r := by
        rw [storeGet_matchedEntries s.store q id hdk, hr]
        simp [hm]
      have hp := hpost id
      rw [hme] at hp
      exact hp
    · rw [if_neg hm]
      have hme : storeGet (matchedEntries s.store q) id = none := by
        rw [storeGet_matchedEntries s.store q id hdk, hr]
        simp [hm]
      have hp := hpost id
      rw [hme, hr] at hp
      exact hp
  · intro id hr
    have hme : storeGet (matchedEntries s.store q) id = none := by
      rw [storeGet_matchedEntries s.store q id hdk, hr]
    have hp := hpost id
    rw [hme, hr] at hp
    exact hp

theorem deleteOp_ok (s : DriverState) (q : Record)
    (hc : s.connected = true) (hwf : WFStore s.store) :
    ∃ st', deleteOp s q
        = Except.ok (DriverState.mk true st', (runGet s.store q).length) ∧
      (∀ id r, storeGet s.store id = some r →
        storeGet st' id = if matchesQuery r q then none else some r) ∧
      (∀ id, storeGet s.store id = none → storeGet st' id = none) := by
  rcases hwf with ⟨hdk, hprops⟩
  have hpm : ∀ p ∈ matchedEntries s.store q, p.1 ≠ "" ∧
      lookupField p.2 "_id" = some (Value.str p.1) := by
    intro p hp
    rcases mem_matchedEntries hp with ⟨hmem, _⟩
    exact hprops p hmem
  rcases deleteLoop_ok (matchedEntries s.store q) s.store hpm
    with ⟨st', heq, hpost⟩
  refine ⟨st', ?_, ?_, ?_⟩
  · rw [deleteOp, if_pos hc, runGet_eq_map_matchedEntries, heq]
    simp
  · intro id r hr
    by_cases hm : matchesQuery r q
    · rw [if_pos hm]
      have hme : storeGet (matchedEntries s.store q) id = some r := by
        rw [storeGet_matchedEntries s.store q id hdk, hr]
        simp [hm]
      have hp := hpost id
      rw [hme] at hp
      exact hp
    · rw [if_neg hm]
      have hme : storeGet (matchedEntries s.store q) id = none := by
        rw [storeGet_matchedEntries s.store q id hdk, hr]
        simp [hm]
      have hp := hpost id
      rw [hme, hr] at hp
      exact hp
  · intro id hr
    have hme : storeGet (matchedEntries s.store q) id = none := by
      rw [storeGet_matchedEntries s.store q id hdk, hr]
    have hp := hpost id
    rw [hme, hr] at hp
    exact hp

theorem generateId_fresh (st : Store) (now : Nat) (rand : String)
    (h : ∀ k ∈ st.map Prod.fst, ∃ t r, k = generateId t r ∧ t < now) :
    generateId now rand ∉ st.map Prod.fst := by
  intro hmem
  rcases h _ hmem with ⟨t, r, heq, hlt⟩
  exact generateId_ne_of_time_lt t now r rand (Nat.ne_of_lt hlt) heq.symm

/-! ### The claims -/

/-- C1: if the adapter is not connected (before `connect()` or after
`disconnect()`, i.e. the handles are null), every data operation — set, get,
getOne, update, delete, exists, count, clear — fails immediately with the
'not connected' error, attempting no work; `disconnect` always leaves the
adapter in that state, and only `connect` leaves the connected state, so the
failures persist until `connect()` is called again. -/
theorem claim1_not_connected (s s₀ : DriverState) (now : Nat) (rand : String)
    (q d : Record) (h : s.connected = false) :
    setOp s now rand d = Except.error notConnectedMsg ∧
    getOp s q = Except.error notConnectedMsg ∧
    getOneOp s q = Except.error notConnectedMsg ∧
    updateOp s now q d = Except.error notConnectedMsg ∧
    deleteOp s q = Except.error notConnectedMsg ∧
    existsOp s q = Except.error notConnectedMsg ∧
    countOp s q = Except.error notConnectedMsg ∧
    clearOp s = Except.error notConnectedMsg ∧
    (disconnect s₀).connected = false ∧
    (connect s₀).connected = true := by
  refine ⟨?_, ?_, ?_, ?_, ?_, ?_, ?_, ?_, rfl, rfl⟩ <;>
    simp [setOp, getOp, getOneOp, updateOp, deleteOp, existsOp, countOp,
      clearOp, h]

theorem claim1_witness :
    setOp (DriverState.mk false []) 3 "r" [] = Except.error notConnectedMsg ∧
    getOp (DriverState.mk false []) [] = Except.error notConnectedMsg ∧
    getOneOp (DriverState.mk false []) [] = Except.error notConnectedMsg ∧
    updateOp (DriverState.mk false []) 3 [] [] = Except.error notConnectedMsg ∧
    deleteOp (DriverState.mk false []) [] = Except.error notConnectedMsg ∧
    existsOp (DriverState.mk false []) [] = Except.error notConnectedMsg ∧
    countOp (DriverState.mk false []) [] = Except.error notConnectedMsg ∧
    clearOp (DriverState.mk false []) = Except.error notConnectedMsg ∧
    (disconnect (DriverState.mk true [])).connected = false ∧
    (connect (DriverState.mk true [])).connected = true :=
  claim1_not_connected (DriverState.mk false []) (DriverState.mk true [])
    3 "r" [] [] rfl

/-- C2: on a connected adapter, `set(data)` generates a fresh identifier
(fresh because stored ids carry strictly earlier time components), stamps
`_createdAt` and `_updatedAt` with the current time, merges these reserved
fields over the caller-supplied fields, persists exactly that merged record
under the generated identifier, and returns that same persisted record. -/
theorem claim2_set (s : DriverState) (now : Nat) (rand : String) (data : Record)
    (hc : s.connected = true)
    (hfresh : ∀ k ∈ s.store.map Prod.fst, ∃ t r, k = generateId t r ∧ t < now) :
    ∃ s' rec, setOp s now rand data = Except.ok (s', rec) ∧
      rec = buildRecord data (generateId now rand) now ∧
      generateId now rand ∉ s.store.map Prod.fst ∧
      storeGet s'.store (generateId now rand) = some rec ∧
      lookupField rec "_id" = some (Value.str (generateId now rand)) ∧
      lookupField rec "_createdAt" = some (isoTime now) ∧
      lookupField rec "_updatedAt" = some (isoTime now) ∧
      (∀ k, k ≠ "_id" → k ≠ "_createdAt" → k ≠ "_updatedAt" →
        lookupField rec k = lookupField data k) ∧
      s'.store = storeSet s.store (generateId now rand) rec := by
  refine ⟨_, _, setOp_ok s now rand data hc, rfl,
    generateId_fresh s.store now rand hfresh,
    storeGet_storeSet_self _ _ _,
    buildRecord_id data _ now,
    buildRecord_createdAt data _ now,
    buildRecord_updatedAt data _ now,
    fun k h1 h2 h3 => buildRecord_other data _ now k h1 h2 h3,
    rfl⟩

theorem claim2_witness :
    ∃ s' rec,
      setOp (DriverState.mk true []) 5 "ab" [("name", Value.str "a")]
        = Except.ok (s', rec) ∧
      rec = buildRecord [("name", Value.str "a")] (generateId 5 "ab") 5 ∧
      generateId 5 "ab" ∉ (([] : Store)).map Prod.fst ∧
      storeGet s'.store (generateId 5 "ab") = some rec ∧
      lookupField rec "_id" = some (Value.str (generateId 5 "ab")) ∧
      lookupField rec "_createdAt" = some (isoTime 5) ∧
      lookupField rec "_updatedAt" = some (isoTime 5) ∧
      (∀ k, k ≠ "_id" → k ≠ "_createdAt" → k ≠ "_updatedAt" →
        lookupField rec k = lookupField [("name", Value.str "a")] k) ∧
      s'.store = storeSet [] (generateId 5 "ab") rec :=
  claim2_set (DriverState.mk true []) 5 "ab" [("name", Value.str "a")] rfl
    (by simp)

/-- C4: on a connected adapter, when the query carries an `_id` identifier
(a non-empty string), `getOne` is the direct point lookup of that identifier
— the store's answer for that id, null when absent, the other query fields
unconsulted; when the query has no `_id` key, `getOne` returns the first
element of `get(query)`, or null when that result is empty. -/
theorem claim4_getOne (s : DriverState) (q : Record) (hc : s.connected = true) :
    (∀ id, lookupField q "_id" = some (Value.str id) → id ≠ "" →
      getOneOp s q = Except.ok (storeGet s.store id)) ∧
    (lookupField q "_id" = none →
      getOneOp s q = Except.ok (runGet s.store q).head? ∧
      getOp s q = Except.ok (runGet s.store q)) := by
  constructor
  · intro id hid hne
    rw [getOneOp, if_pos hc, hid]
    simp [Value.truthy, string_isEmpty_false_of_ne hne]
  · intro hid
    rw [getOneOp, if_pos hc, hid, getOp, if_pos hc]
    exact ⟨rfl, rfl⟩

theorem claim4_witness :
    (∀ id,
      lookupField [("_id", Value.str "k")] "_id" = some (Value.str id) →
      id ≠ "" →
      getOneOp (DriverState.mk true [("k", [("_id", Value.str "k")])])
        [("_id", Value.str "k")]
        = Except.ok (storeGet [("k", [("_id", Value.str "k")])] id)) ∧
    (lookupField [("_id", Value.str "k")] "_id" = none →
      getOneOp (DriverState.mk true [("k", [("_id", Value.str "k")])])
        [("_id", Value.str "k")]
        = Except.ok (runGet [("k", [("_id", Value.str "k")])]
            [("_id", Value.str "k")]).head? ∧
      getOp (DriverState.mk true [("k", [("_id", Value.str "k")])])
        [("_id", Value.str "k")]
        = Except.ok (runGet [("k", [("_id", Value.str "k")])]
            [("_id", Value.str "k")])) :=
  claim4_getOne (DriverState.mk true [("k", [("_id", Value.str "k")])])
    [("_id", Value.str "k")] rfl

/-- C6: on a connected adapter, setting a record and then reading it back by
the `_id` field of the returned record (`getOne({_id: set(r)._id})`) yields
exactly the record `set` returned: the store neither mutated nor dropped any
of its fields. -/
theorem claim6_roundtrip (s : DriverState) (now : Nat) (rand : String)
    (data : Record) (hc : s.connected = true) :
    ∃ s' rec, setOp s now rand data = Except.ok (s', rec) ∧
      ∃ id, lookupField rec "_id" = some (Value.str id) ∧
        getOneOp s' [("_id", Value.str id)] = Except.ok (some rec) := by
  refine ⟨_, _, setOp_ok s now rand data hc, generateId now rand,
    buildRecord_id data _ now, ?_⟩
  rw [getOneOp, if_pos rfl]
  have hlk : lookupField [("_id", Value.str (generateId now rand))] "_id"
      = some (Value.str (generateId now rand)) := by
    simp [lookupField]
  rw [hlk]
  simp [Value.truthy, generateId_not_empty, storeGet_storeSet_self]

theorem claim6_witness :
    ∃ s' rec,
      setOp (DriverState.mk true []) 5 "ab" [("name", Value.str "a")]
        = Except.ok (s', rec) ∧
      ∃ id, lookupField rec "_id" = some (Value.str id) ∧
        getOneOp s' [("_id", Value.str id)] = Except.ok (some rec) :=
  claim6_roundtrip (DriverState.mk true []) 5 "ab" [("name", Value.str "a")] rfl

/-- C9: when the caller's data map itself carries any of the reserved keys
`_id`, `_createdAt` or `_updatedAt`, `set(data)` ignores those caller-supplied
values: the reserved fields are spread after the caller's fields, so the
persisted and returned record carries the freshly generated `_id` and freshly
stamped timestamps, never the caller's. -/
theorem claim9_reserved_overridden (s : DriverState) (now : Nat) (rand : String)
    (data : Record) (hc : s.connected = true)
    (hhas : lookupField data "_id" ≠ none ∨ lookupField data "_createdAt" ≠ none ∨
      lookupField data "_updatedAt" ≠ none) :
    ∃ s' rec, setOp s now rand data = Except.ok (s', rec) ∧
      lookupField rec "_id" = some (Value.str (generateId now rand)) ∧
      lookupField rec "_createdAt" = some (isoTime now) ∧
      lookupField rec "_updatedAt" = some (isoTime now) ∧
      storeGet s'.store (generateId now rand) = some rec :=
  ⟨_, _, setOp_ok s now rand data hc,
    buildRecord_id data _ now,
    buildRecord_createdAt data _ now,
    buildRecord_updatedAt data _ now,
    storeGet_storeSet_self _ _ _⟩

theorem claim9_witness :
    (lookupField [("_id", Value.str "boss")] "_id" ≠ none ∨
      lookupField [("_id", Value.str "boss")] "_createdAt" ≠ none ∨
      lookupField [("_id", Value.str "boss")] "_updatedAt" ≠ none) ∧
    ∃ s' rec,
      setOp (DriverState.mk true []) 4 "zz" [("_id", Value.str "boss")]
        = Except.ok (s', rec) ∧
      lookupField rec "_id" = some (Value.str (generateId 4 "zz")) ∧
      lookupField rec "_createdAt" = some (isoTime 4) ∧
      lookupField rec "_updatedAt" = some (isoTime 4) ∧
      storeGet s'.store (generateId 4 "zz") = some rec :=
  ⟨Or.inl (by decide),
    claim9_reserved_overridden (DriverState.mk true []) 4 "zz"
      [("_id", Value.str "boss")] rfl (Or.inl (by decide))⟩

theorem matchesQuery_nil (r : Record) : matchesQuery r [] = true := rfl

theorem runGet_nil (st : Store) : runGet st [] = st.map Prod.snd := by
  unfold runGet
  induction st with
  | nil => rfl
  | cons p rest ih =>
      rw [List.map_cons, List.filter_cons, if_pos (by simp [matchesQuery_nil])]
      rw [ih]

/-- C3: on a connected adapter, `update(q, d)` merges `d` into each record
matching `q` — any caller-supplied `_id` is stripped and never overwrites the
record's `_id` — refreshes `_updatedAt` on each, and returns the number of
records that matched `q` before the call; non-matching records are untouched,
and zero matches is not an error: the call succeeds with count 0. -/
theorem claim3_update (s : DriverState) (now : Nat) (q d : Record)
    (hc : s.connected = true) (hwf : WFStore s.store) (hd : distinctKeys d) :
    ∃ st', updateOp s now q d
        = Except.ok (DriverState.mk true st', (runGet s.store q).length) ∧
      (∀ id r, storeGet s.store id = some r → matchesQuery r q = true →
        ∃ r', storeGet st' id = some r' ∧
          r' = mergeFields r (mkUpdateData d now) ∧
          lookupField r' "_id" = lookupField r "_id" ∧
          lookupField r' "_updatedAt" = some (isoTime now) ∧
          (∀ k v, k ≠ "_id" → k ≠ "_updatedAt" → lookupField d k = some v →
            lookupField r' k = some v)) ∧
      (∀ id r, storeGet s.store id = some r → matchesQuery r q = false →
        storeGet st' id = some r) ∧
      (runGet s.store q = [] →
        updateOp s now q d = Except.ok (DriverState.mk true st', 0)) := by
  rcases updateOp_ok s now q d hc hwf with ⟨st', heq, _, hsome, _⟩
  refine ⟨st', heq, ?_, ?_, ?_⟩
  · intro id r hr hm
    have hrec := hsome id r hr
    rw [if_pos hm] at hrec
    refine ⟨mergeFields r (mkUpdateData d now), hrec, rfl,
      lookupField_mergeFields_none r _ "_id" (mkUpdateData_id d now),
      lookupField_mergeFields_some r _ "_updatedAt" (isoTime now)
        (distinctKeys_mkUpdateData d now hd) (mkUpdateData_updatedAt d now),
      ?_⟩
    intro k v h1 h2 hv
    refine lookupField_mergeFields_some r _ k v
      (distinctKeys_mkUpdateData d now hd) ?_
    rw [mkUpdateData_other d now k h1 h2]
    exact hv
  · intro id r hr hm
    have hrec := hsome id r hr
    rwa [if_neg (by simp [hm])] at hrec
  · intro hz
    rw [heq, hz]
    rfl

theorem claim3_witness :
    ∃ st', updateOp
        (DriverState.mk true [("k", [("_id", Value.str "k"), ("n", Value.num 1)])])
        7 [("n", Value.num 1)] [("m", Value.num 2)]
        = Except.ok (DriverState.mk true st',
            (runGet [("k", [("_id", Value.str "k"), ("n", Value.num 1)])]
              [("n", Value.num 1)]).length) ∧
      (∀ id r,
        storeGet [("k", [("_id", Value.str "k"), ("n", Value.num 1)])] id
          = some r →
        matchesQuery r [("n", Value.num 1)] = true →
        ∃ r', storeGet st' id = some r' ∧
          r' = mergeFields r (mkUpdateData [("m", Value.num 2)] 7) ∧
          lookupField r' "_id" = lookupField r "_id" ∧
          lookupField r' "_updatedAt" = some (isoTime 7) ∧
          (∀ k v, k ≠ "_id" → k ≠ "_updatedAt" →
            lookupField [("m", Value.num 2)] k = some v →
            lookupField r' k = some v)) ∧
      (∀ id r,
        storeGet [("k", [("_id", Value.str "k"), ("n", Value.num 1)])] id
          = some r →
        matchesQuery r [("n", Value.num 1)] = false →
        storeGet st' id = some r) ∧
      (runGet [("k", [("_id", Value.str "k"), ("n", Value.num 1)])]
          [("n", Value.num 1)] = [] →
        updateOp
          (DriverState.mk true [("k", [("_id", Value.str "k"), ("n", Value.num 1)])])
          7 [("n", Value.num 1)] [("m", Value.num 2)]
          = Except.ok (DriverState.mk true st', 0)) :=
  claim3_update
    (DriverState.mk true [("k", [("_id", Value.str "k"), ("n", Value.num 1)])])
    7 [("n", Value.num 1)] [("m", Value.num 2)] rfl (by decide) (by decide)

/-- C5: identifiers generated by `set` carry the operation's time component;
when the time component strictly increases past those of all stored records
(the ids being time-plus-random-suffix strings), the generated identifier
differs from the `_id` of every record already stored, and the store after
`set` again has pairwise-distinct ids with each record carrying its own id —
every stored record's `_id` is unique within the collection. -/
theorem claim5_unique_ids (s : DriverState) (now : Nat) (rand : String)
    (data : Record) (hc : s.connected = true) (hwf : WFStore s.store)
    (hmono : ∀ k ∈ s.store.map Prod.fst, ∃ t r, k = generateId t r ∧ t < now) :
    generateId now rand ∉ s.store.map Prod.fst ∧
    ∃ s' rec, setOp s now rand data = Except.ok (s', rec) ∧
      lookupField rec "_id" = some (Value.str (generateId now rand)) ∧
      WFStore s'.store :=
  ⟨generateId_fresh s.store now rand hmono,
    _, _, setOp_ok s now rand data hc,
    buildRecord_id data _ now,
    WFStore_storeSet_buildRecord s.store now rand data hwf⟩

theorem claim5_witness :
    generateId 5 "xy" ∉
      ([(generateId 3 "ab", [("_id", Value.str (generateId 3 "ab"))])] : Store).map
        Prod.fst ∧
    ∃ s' rec,
      setOp (DriverState.mk true
          [(generateId 3 "ab", [("_id", Value.str (generateId 3 "ab"))])])
        5 "xy" [] = Except.ok (s', rec) ∧
      lookupField rec "_id" = some (Value.str (generateId 5 "xy")) ∧
      WFStore s'.store :=
  claim5_unique_ids
    (DriverState.mk true
      [(generateId 3 "ab", [("_id", Value.str (generateId 3 "ab"))])])
    5 "xy" [] rfl
    (by
      constructor
      · simp [distinctKeys]
      · intro p hp
        simp only [List.mem_singleton] at hp
        subst hp
        exact ⟨generateId_ne_empty_str 3 "ab", by simp [lookupField]⟩)
    (by
      intro k hk
      simp only [List.map_cons, List.map_nil, List.mem_singleton] at hk
      exact ⟨3, "ab", hk, by norm_num⟩)

/-- C7: on a connected adapter, `clear()` deletes every record of the bound
collection — it runs exactly `delete({})`, and ends in the very state
`delete({})` produces — so after `clear()` the collection is empty and
`count({})` returns 0. -/
theorem claim7_clear (s : DriverState) (hc : s.connected = true)
    (hwf : WFStore s.store) :
    ∃ s', clearOp s = Except.ok s' ∧ s'.store = [] ∧
      countOp s' [] = Except.ok 0 ∧
      deleteOp s [] = Except.ok (s', s.store.length) := by
  rcases deleteOp_ok s [] hc hwf with ⟨st', heq, hsome, hnone⟩
  have hnil : st' = [] := by
    apply store_eq_nil_of_forall_none
    intro id
    cases hg : storeGet s.store id with
    | some r =>
        have := hsome id r hg
        rwa [if_pos (matchesQuery_nil r)] at this
    | none => exact hnone id hg
  subst hnil
  have hlen : (runGet s.store []).length = s.store.length := by
    rw [runGet_nil, List.length_map]
  refine ⟨DriverState.mk true [], ?_, rfl, rfl, ?_⟩
  · rw [clearOp, if_pos hc, heq]
  · rw [heq, hlen]

theorem claim7_witness :
    ∃ s', clearOp (DriverState.mk true [("k", [("_id", Value.str "k")])])
        = Except.ok s' ∧
      s'.store = [] ∧
      countOp s' [] = Except.ok 0 ∧
      deleteOp (DriverState.mk true [("k", [("_id", Value.str "k")])]) []
        = Except.ok (s', [("k", [("_id", Value.str "k")])].length) :=
  claim7_clear (DriverState.mk true [("k", [("_id", Value.str "k")])]) rfl
    (by decide)

/-- C8: on a connected adapter, for any record matching the update query whose
stored `_updatedAt` is `t1`, a successful `update` rewrites that record's
`_updatedAt` to the operation's current time `now`; since the wall clock does
not run backwards (`t1 ≤ now`), the new timestamp `t2 = now` satisfies
`t2 ≥ t1` — `_updatedAt` never decreases across updates. -/
theorem claim8_updatedAt (s : DriverState) (now : Nat) (q d : Record)
    (hc : s.connected = true) (hwf : WFStore s.store) (hd : distinctKeys d)
    (id : String) (r : Record) (t1 : Nat)
    (hr : storeGet s.store id = some r) (hm : matchesQuery r q = true)
    (ht1 : lookupField r "_updatedAt" = some (isoTime t1))
    (hclock : t1 ≤ now) :
    ∃ st' r', updateOp s now q d
        = Except.ok (DriverState.mk true st', (runGet s.store q).length) ∧
      storeGet st' id = some r' ∧
      lookupField r' "_updatedAt" = some (isoTime now) ∧
      t1 ≤ now := by
  rcases updateOp_ok s now q d hc hwf with ⟨st', heq, _, hsome, _⟩
  have hrec := hsome id r hr
  rw [if_pos hm] at hrec
  exact ⟨st', mergeFields r (mkUpdateData d now), heq, hrec,
    lookupField_mergeFields_some r _ "_updatedAt" (isoTime now)
      (distinctKeys_mkUpdateData d now hd) (mkUpdateData_updatedAt d now),
    hclock⟩

theorem claim8_witness :
    ∃ st' r', updateOp
        (DriverState.mk true
          [("k", [("_id", Value.str "k"), ("_updatedAt", Value.num 2)])])
        9 [] []
        = Except.ok (DriverState.mk true st',
            (runGet [("k", [("_id", Value.str "k"), ("_updatedAt", Value.num 2)])]
              []).length) ∧
      storeGet st' "k" = some r' ∧
      lookupField r' "_updatedAt" = some (isoTime 9) ∧
      2 ≤ 9 :=
  claim8_updatedAt
    (DriverState.mk true
      [("k", [("_id", Value.str "k"), ("_updatedAt", Value.num 2)])])
    9 [] [] rfl (by decide) (by decide) "k"
    [("_id", Value.str "k"), ("_updatedAt", Value.num 2)] 2
    (by decide) (by decide) (by decide) (by decide)

/-- C10: `update(q, d)` strips only `_id` from the caller-supplied data before
writing: the update payload has no `_id` key but keeps a caller-supplied
`_createdAt`, so for every matched record that value overwrites the stored
record's `_createdAt` — the creation timestamp is not protected against
modification through `update` — while the record's `_id` stays unchanged. -/
theorem claim10_createdAt_unprotected (s : DriverState) (now : Nat)
    (q d : Record) (hc : s.connected = true) (hwf : WFStore s.store)
    (hd : distinctKeys d) (id : String) (r : Record) (v : Value)
    (hr : storeGet s.store id = some r) (hm : matchesQuery r q = true)
    (hv : lookupField d "_createdAt" = some v) :
    lookupField (mkUpdateData d now) "_id" = none ∧
    lookupField (mkUpdateData d now) "_createdAt" = some v ∧
    ∃ st' r', updateOp s now q d
        = Except.ok (DriverState.mk true st', (runGet s.store q).length) ∧
      storeGet st' id = some r' ∧
      lookupField r' "_createdAt" = some v ∧
      lookupField r' "_id" = lookupField r "_id" := by
  have hupd : lookupField (mkUpdateData d now) "_createdAt" = some v := by
    rw [mkUpdateData_other d now "_createdAt" (by decide) (by decide)]
    exact hv
  rcases updateOp_ok s now q d hc hwf with ⟨st', heq, _, hsome, _⟩
  have hrec := hsome id r hr
  rw [if_pos hm] at hrec
  exact ⟨mkUpdateData_id d now, hupd, st', mergeFields r (mkUpdateData d now),
    heq, hrec,
    lookupField_mergeFields_some r _ "_createdAt" v
      (distinctKeys_mkUpdateData d now hd) hupd,
    lookupField_mergeFields_none r _ "_id" (mkUpdateData_id d now)⟩

theorem claim10_witness :
    lookupField (mkUpdateData [("_createdAt", Value.num 99)] 6) "_id" = none ∧
    lookupField (mkUpdateData [("_createdAt", Value.num 99)] 6) "_createdAt"
      = some (Value.num 99) ∧
    ∃ st' r', updateOp
        (DriverState.mk true
          [("k", [("_id", Value.str "k"), ("_createdAt", Value.num 1)])])
        6 [] [("_createdAt", Value.num 99)]
        = Except.ok (DriverState.mk true st',
            (runGet [("k", [("_id", Value.str "k"), ("_createdAt", Value.num 1)])]
              []).length) ∧
      storeGet st' "k" = some r' ∧
      lookupField r' "_createdAt" = some (Value.num 99) ∧
      lookupField r' "_id"
        = lookupField [("_id", Value.str "k"), ("_createdAt", Value.num 1)] "_id" :=
  claim10_createdAt_unprotected
    (DriverState.mk true
      [("k", [("_id", Value.str "k"), ("_createdAt", Value.num 1)])])
    6 [] [("_createdAt", Value.num 99)] rfl (by decide) (by decide) "k"
    [("_id", Value.str "k"), ("_createdAt", Value.num 1)] (Value.num 99)
    (by decide) (by decide) (by decide)

end HawiahFirebase
